import Mathlib

set_option maxHeartbeats 1000000

/-!
Shallow embedding of `example_classification.py` from TF_FeatureExtraction.

Modelling choices:
* Pixel samples of a raw (uint8) image are natural numbers; images are
  flattened lists of samples.  Float32 arithmetic of the normalization and
  denormalization transforms is modelled with exact rationals.
* `np.argmax` / `np.squeeze` are modelled from their documented behaviour
  (first occurrence of the maximum; removal of all axes of size 1), since
  numpy is an external library.
* The feature-extraction backend is opaque: the queue variant receives the
  backend's outputs (logits plus the fetched image echo) as data, the
  placeholder variant receives the backend as a function from the fed batch
  to the logits.
* Python indexing errors (IndexError on a short list, numpy AxisError) are
  modelled by `Option`: a run that raises returns `none`.
-/

/-- Raw 8-bit image: a flattened list of pixel samples, each in [0, 255]. -/
abbrev RawImage := List Nat

/-- Normalized float image, modelled with exact rationals. -/
abbrev NormImage := List ℚ

/-- One sample of inception normalization, lines 91-93 of the source:
`(raw/255.0 - 0.5) * 2.0`. -/
def normalizePixel (x : Nat) : ℚ := ((x : ℚ) / 255 - 1/2) * 2

/-- Elementwise normalization of a raw image (the loop body at lines 91-93). -/
def normalizeImage (img : RawImage) : NormImage := img.map normalizePixel

/-- Model of `astype(np.uint8)` applied to a float value: truncation toward
zero (C cast semantics), then reduction to the 8-bit range. -/
def astypeUInt8 (q : ℚ) : Nat := ((q.num).tdiv (q.den : Int)).toNat % 256

/-- One sample of the display reconstruction at line 106:
`((v/2.0)+0.5)*255.0` cast to uint8. -/
def denormalizePixel (q : ℚ) : Nat := astypeUInt8 ((q / 2 + 1/2) * 255)

/-- Elementwise denormalization (line 106). -/
def denormalizeImage (img : NormImage) : RawImage := img.map denormalizePixel

/-- The class_index computation at lines 56 and 107 of the source:
`predictions[i] if num_classes == 1001 else predictions[i]+1`. -/
def class_index (num_classes pred : Nat) : Nat :=
  if num_classes = 1001 then pred else pred + 1

/-- Model of `np.argmax` on a 1-D array, from its documented behaviour:
index of the maximum value, first occurrence on ties. -/
def npArgmax : List ℚ → Nat
  | [] => 0
  | [_] => 0
  | x :: y :: ys =>
      if x < (y :: ys).getD (npArgmax (y :: ys)) 0 then npArgmax (y :: ys) + 1 else 0

/-- Result shapes relevant to `np.squeeze` applied to a 2-D array. -/
inductive NpArray where
  | scalar : ℚ → NpArray
  | one : List ℚ → NpArray
  | two : List (List ℚ) → NpArray
deriving DecidableEq

/-- Model of `np.squeeze` on a (rectangular) 2-D array: every axis of
size 1 is removed. -/
def npSqueeze (rows : List (List ℚ)) : NpArray :=
  match rows with
  | [[q]] => NpArray.scalar q
  | [r] => NpArray.one r
  | _ =>
      if rows ≠ [] ∧ rows.all (fun r => r.length = 1) then
        NpArray.one (rows.map (fun r => r.headD 0))
      else
        NpArray.two rows

/-- Model of `np.argmax(-, axis=1)`: defined only on 2-D data with nonempty
rows; on anything else numpy raises (AxisError / empty-sequence error). -/
def npArgmaxAxis1 : NpArray → Option (List Nat)
  | NpArray.two rows =>
      if rows.all (fun r => !r.isEmpty) then some (rows.map npArgmax) else none
  | _ => none

/-- The decoding step shared by both variants (lines 51-52 and 101-102):
`predictions = np.argmax(np.squeeze(outputs[0]), axis=1)`. -/
def decodeStep (logits : List (List ℚ)) : Option (List Nat) :=
  npArgmaxAxis1 (npSqueeze logits)

/-- A Python loop `for i in range(n)` whose body may raise; results are
collected in order, and an exception at any iteration aborts the run. -/
def runLoop {α : Type} (step : Nat → Option α) : Nat → Option (List α)
  | 0 => some []
  | n + 1 =>
      (runLoop step n).bind fun xs =>
        (step n).bind fun x => some (xs ++ [x])

/-- What `feed_forward_batch(layer_names, fetch_images=True)` returns to the
queue variant: the logits (`outputs[0]`) and the echo of the raw images the
backend consumed. -/
structure QueueOutputs where
  logits : List (List ℚ)
  fetchedImages : List RawImage
deriving DecidableEq

/-- Embedding of `classification_queue_input` (lines 47-57).  `disk` models
`misc.imread`; `image_files` the resolved file list.  The display loop pairs
`misc.imread(image_files[i])` with `class_index` of `predictions[i]`; the
fetched images in `outputs` are never consulted, as in the source. -/
def classification_queue_input (disk : Nat → RawImage) (image_files : List Nat)
    (outputs : QueueOutputs) (batch_size num_classes : Nat) :
    Option (List (RawImage × Nat)) :=
  (decodeStep outputs.logits).bind fun predictions =>
    runLoop (fun i =>
      (image_files[i]?).bind fun f =>
        (predictions[i]?).bind fun p =>
          some (disk f, class_index num_classes p)) batch_size

/-- Per-image preprocessing of the placeholder variant (lines 88-93):
read from disk, resize (opaque collaborator), normalize. -/
def preprocessImage (disk : Nat → RawImage) (resize : RawImage → RawImage)
    (f : Nat) : NormImage :=
  normalizeImage (resize (disk f))

/-- The batch-assembly loop at lines 84-94. -/
def builtBatch (disk : Nat → RawImage) (resize : RawImage → RawImage)
    (image_files : List Nat) (batch_size : Nat) : Option (List NormImage) :=
  runLoop (fun i => (image_files[i]?).map (preprocessImage disk resize)) batch_size

/-- Embedding of `classification_placeholder_input` (lines 77-108).
`backend` maps the fed batch tensor to the logits `outputs[0]`.  The display
loop reconstructs the image from `batch_images[i]` via denormalization. -/
def classification_placeholder_input (disk : Nat → RawImage)
    (resize : RawImage → RawImage) (backend : List NormImage → List (List ℚ))
    (image_files : List Nat) (batch_size num_classes : Nat) :
    Option (List (RawImage × Nat)) :=
  (builtBatch disk resize image_files batch_size).bind fun batch_images =>
    (decodeStep (backend batch_images)).bind fun predictions =>
      runLoop (fun i =>
        (batch_images[i]?).bind fun img =>
          (predictions[i]?).bind fun p =>
            some (denormalizeImage img, class_index num_classes p)) batch_size

/-! Helper lemmas shared by the claim theorems. -/

/-- The first-occurrence arg-max characterization: the chosen index is in
range, its value is maximal, and every earlier value is strictly smaller. -/
lemma npArgmax_spec (l : List ℚ) (hl : l ≠ []) :
    npArgmax l < l.length ∧
    (∀ j, j < l.length → l.getD j 0 ≤ l.getD (npArgmax l) 0) ∧
    (∀ j, j < npArgmax l → l.getD j 0 < l.getD (npArgmax l) 0) := by
  induction l with
  | nil => exact absurd rfl hl
  | cons x xs ih =>
    cases xs with
    | nil =>
      refine ⟨by simp [npArgmax], ?_, ?_⟩
      · intro j hj
        have hj0 : j = 0 := by simpa using hj
        subst hj0
        simp [npArgmax]
      · intro j hj
        simp [npArgmax] at hj
    | cons y ys =>
      obtain ⟨ihlt, ihmax, ihfirst⟩ := ih (by simp)
      simp only [npArgmax]
      by_cases hx : x < (y :: ys).getD (npArgmax (y :: ys)) 0
      · rw [if_pos hx]
        refine ⟨by simpa using Nat.succ_lt_succ ihlt, ?_, ?_⟩
        · intro j hj
          cases j with
          | zero =>
            simpa [List.getD_cons_zero, List.getD_cons_succ] using le_of_lt hx
          | succ k =>
            rw [List.getD_cons_succ, List.getD_cons_succ]
            exact ihmax k (by simpa using hj)
        · intro j hj
          cases j with
          | zero =>
            simpa [List.getD_cons_zero, List.getD_cons_succ] using hx
          | succ k =>
            rw [List.getD_cons_succ, List.getD_cons_succ]
            exact ihfirst k (by omega)
      · rw [if_neg hx]
        push_neg at hx
        refine ⟨by simp, ?_, ?_⟩
        · intro j hj
          cases j with
          | zero => simp
          | succ k =>
            rw [List.getD_cons_succ, List.getD_cons_zero]
            exact le_trans (ihmax k (by simpa using hj)) hx
        · intro j hj
          omega

/-- A successful bounded loop has one result per iteration, in order. -/
lemma runLoop_eq_some {α : Type} {step : Nat → Option α} :
    ∀ {n : Nat} {res : List α}, runLoop step n = some res →
      res.length = n ∧ ∀ i, i < n → res[i]? = step i := by
  intro n
  induction n with
  | zero =>
    intro res h
    simp only [runLoop, Option.some.injEq] at h
    subst h
    exact ⟨rfl, fun i hi => absurd hi (by omega)⟩
  | succ n ih =>
    intro res h
    simp only [runLoop, Option.bind_eq_some', Option.some.injEq] at h
    obtain ⟨xs, hxs, x, hx, hres⟩ := h
    obtain ⟨hlen, hget⟩ := ih hxs
    subst hres
    refine ⟨by simp [hlen], ?_⟩
    intro i hi
    rcases Nat.lt_succ_iff_lt_or_eq.mp hi with hi1 | hi1
    · rw [List.getElem?_append_left (by omega), hget i hi1]
    · subst hi1
      rw [List.getElem?_append_right (by omega)]
      simp [hlen, hx]

/-- A bounded loop whose body raises at some reached iteration raises. -/
lemma runLoop_eq_none {α : Type} {step : Nat → Option α} {i : Nat}
    (hstep : step i = none) : ∀ {n : Nat}, i < n → runLoop step n = none := by
  intro n
  induction n with
  | zero => intro h; omega
  | succ n ih =>
    intro hin
    by_cases hi : i < n
    · simp only [runLoop, ih hi, Option.none_bind']
    · have hin2 : i = n := by omega
      subst hin2
      cases hrl : runLoop step i with
      | none => simp [runLoop, hrl]
      | some xs => simp [runLoop, hrl, hstep]

/-- When squeeze leaves the logits 2-D with nonempty rows, the decoding step
computes the per-row arg-max. -/
lemma decodeStep_two (rows : List (List ℚ))
    (hsq : npSqueeze rows = NpArray.two rows)
    (hne : rows.all (fun r => !r.isEmpty) = true) :
    decodeStep rows = some (rows.map npArgmax) := by
  unfold decodeStep
  rw [hsq]
  simp [npArgmaxAxis1, hne]

/-- Per-sample round trip: the rational model of the float arithmetic is
exact on valid 8-bit samples. -/
lemma denormalizePixel_normalizePixel (x : Nat) (h : x ≤ 255) :
    denormalizePixel (normalizePixel x) = x := by
  have h1 : (normalizePixel x / 2 + 1/2) * 255 = (x : ℚ) := by
    unfold normalizePixel
    field_simp
    ring
  unfold denormalizePixel
  rw [h1]
  unfold astypeUInt8
  simp [Rat.num_natCast, Rat.den_natCast, Int.tdiv]
  omega

/-- Per-image round trip. -/
lemma denormalizeImage_normalizeImage (img : RawImage) (h : ∀ x ∈ img, x ≤ 255) :
    denormalizeImage (normalizeImage img) = img := by
  unfold denormalizeImage normalizeImage
  rw [List.map_map]
  induction img with
  | nil => rfl
  | cons x xs ih =>
    simp only [List.map_cons, Function.comp_apply]
    rw [denormalizePixel_normalizePixel x (h x (by simp)), ih (fun y hy => h y (by simp [hy]))]

/-! Claim theorems. -/

/-- C1 counterexample: at `num_classes = 999` (outside {1000, 1001}) the
class_index computation of lines 56 and 107 does not fail; it produces the
class index 6 from arg-max 5, exactly as it does for 1000 classes. -/
theorem class_index_999_counterexample :
    (999 : Nat) ≠ 1000 ∧ (999 : Nat) ≠ 1001 ∧ class_index 999 5 = 6 := by
  decide

/-- C1 (amended): for every `num_classes` other than 1001 — in particular for
every value outside {1000, 1001} — the prediction-decoding step produces
`argmax + 1`; no `UnsupportedClassCountError` (or any failure) exists in the
code. -/
theorem class_index_no_error (nc a : Nat) (h : nc ≠ 1001) :
    class_index nc a = a + 1 := by
  simp [class_index, h]

/-- C1 witness. -/
theorem class_index_no_error_witness :
    (999 : Nat) ≠ 1001 ∧ class_index 999 5 = 5 + 1 :=
  ⟨by decide, class_index_no_error 999 5 (by decide)⟩

/-- C3: the decoded class index equals the raw arg-max index when
`num_classes = 1001` and `argmax + 1` when `num_classes = 1000`; in
particular `decode 0 = 0` for 1001 classes and `decode 0 = 1` for 1000. -/
theorem class_index_label_shift :
    (∀ a, class_index 1001 a = a) ∧ (∀ a, class_index 1000 a = a + 1) ∧
    class_index 1001 0 = 0 ∧ class_index 1000 0 = 1 := by
  refine ⟨fun a => by simp [class_index], fun a => by simp [class_index],
    by decide, by decide⟩

/-- C4: on every valid 8-bit pixel tensor, denormalization (line 106)
inverts normalization (lines 91-93): in the exact rational model of the
float arithmetic the round trip is the identity, hence within ±1 intensity
unit per sample. -/
theorem denormalize_normalize_roundtrip (img : RawImage)
    (h : ∀ x ∈ img, x ≤ 255) :
    denormalizeImage (normalizeImage img) = img ∧
    ∀ i, ((denormalizeImage (normalizeImage img)).getD i 0 : Int) -
        (img.getD i 0 : Int) ≤ 1 ∧
      (img.getD i 0 : Int) -
        ((denormalizeImage (normalizeImage img)).getD i 0 : Int) ≤ 1 := by
  have he := denormalizeImage_normalizeImage img h
  refine ⟨he, ?_⟩
  intro i
  rw [he]
  omega

/-- C4 witness. -/
theorem denormalize_normalize_roundtrip_witness :
    denormalizeImage (normalizeImage [0, 128, 255]) = [0, 128, 255] ∧
    ∀ i, ((denormalizeImage (normalizeImage [0, 128, 255])).getD i 0 : Int) -
        (([0, 128, 255] : RawImage).getD i 0 : Int) ≤ 1 ∧
      (([0, 128, 255] : RawImage).getD i 0 : Int) -
        ((denormalizeImage (normalizeImage [0, 128, 255])).getD i 0 : Int) ≤ 1 :=
  denormalize_normalize_roundtrip [0, 128, 255] (by decide)

/-- C5: normalization computes `(raw/255 - 0.5) * 2` elementwise, and for
valid 8-bit input every output value lies in [-1, 1]. -/
theorem normalize_formula_range (img : RawImage) (h : ∀ x ∈ img, x ≤ 255) :
    normalizeImage img = img.map (fun x : Nat => ((x : ℚ) / 255 - 1/2) * 2) ∧
    ∀ q ∈ normalizeImage img, -1 ≤ q ∧ q ≤ 1 := by
  refine ⟨rfl, ?_⟩
  intro q hq
  rw [normalizeImage, List.mem_map] at hq
  obtain ⟨x, hx, rfl⟩ := hq
  have hx255 : (x : ℚ) ≤ 255 := by exact_mod_cast h x hx
  have hx0 : (0 : ℚ) ≤ (x : ℚ) := by positivity
  unfold normalizePixel
  constructor
  · linarith
  · linarith

/-- C5 witness. -/
theorem normalize_formula_range_witness :
    normalizeImage [0, 255] =
      ([0, 255] : RawImage).map (fun x : Nat => ((x : ℚ) / 255 - 1/2) * 2) ∧
    ∀ q ∈ normalizeImage [0, 255], -1 ≤ q ∧ q ≤ 1 :=
  normalize_formula_range [0, 255] (by decide)

/-- C7: for every row of the (2-D, post-squeeze) classification output, the
prediction is the index of the maximum score over the class axis, ties
broken by the lowest index. -/
theorem decode_rows_argmax_first_max (rows : List (List ℚ)) (preds : List Nat)
    (i : Nat) (row : List ℚ)
    (hsq : npSqueeze rows = NpArray.two rows)
    (hne : rows.all (fun r => !r.isEmpty) = true)
    (hdec : decodeStep rows = some preds)
    (hrow : rows[i]? = some row) :
    preds[i]? = some (npArgmax row) ∧
    npArgmax row < row.length ∧
    (∀ j, j < row.length → row.getD j 0 ≤ row.getD (npArgmax row) 0) ∧
    (∀ j, j < npArgmax row → row.getD j 0 < row.getD (npArgmax row) 0) := by
  rw [decodeStep_two rows hsq hne, Option.some.injEq] at hdec
  subst hdec
  have hmem : row ∈ rows := List.getElem?_mem hrow
  have hrowne : row ≠ [] := by
    have hall := List.all_eq_true.mp hne row hmem
    simpa using hall
  refine ⟨?_, npArgmax_spec row hrowne⟩
  rw [List.getElem?_map, hrow]
  rfl

/-- C7 witness. -/
theorem decode_rows_argmax_first_max_witness :
    ([1, 0] : List Nat)[0]? = some (npArgmax [3, 7, 7, 2]) ∧
    npArgmax [3, 7, 7, 2] < ([3, 7, 7, 2] : List ℚ).length ∧
    (∀ j, j < ([3, 7, 7, 2] : List ℚ).length →
      ([3, 7, 7, 2] : List ℚ).getD j 0 ≤
        ([3, 7, 7, 2] : List ℚ).getD (npArgmax [3, 7, 7, 2]) 0) ∧
    (∀ j, j < npArgmax [3, 7, 7, 2] →
      ([3, 7, 7, 2] : List ℚ).getD j 0 <
        ([3, 7, 7, 2] : List ℚ).getD (npArgmax [3, 7, 7, 2]) 0) :=
  decode_rows_argmax_first_max [[3, 7, 7, 2], [1, 0]] [1, 0] 0 [3, 7, 7, 2]
    (by decide) (by decide) (by decide) (by decide)

/-- C2 counterexample: a concrete streaming run in which the backend's
fetched images ([99] and [98]) differ from the on-disk files; the displayed
pairs use the disk images ([10] and [11]) read back via the file list, not
the images the backend reports having consumed. -/
theorem queue_input_counterexample :
    classification_queue_input (fun n => [n]) [10, 11]
      ⟨[[0, 1], [1, 0]], [[99], [98]]⟩ 2 1001 = some [([10], 1), ([11], 0)] ∧
    (QueueOutputs.fetchedImages ⟨[[0, 1], [1, 0]], [[99], [98]]⟩)[0]? =
      some [99] ∧
    ([10] : RawImage) ≠ [99] := by
  decide

/-- C2 (amended): in the streaming variant each decoded prediction is paired
for display with the image re-read from disk at position i of the resolved
file list; the images fetched from the backend are requested but unused.
The loop produces exactly batchSize results. -/
theorem queue_input_pairs_disk_images (disk : Nat → RawImage)
    (image_files : List Nat) (outputs : QueueOutputs) (bs nc : Nat)
    (res : List (RawImage × Nat))
    (h : classification_queue_input disk image_files outputs bs nc = some res) :
    ∃ preds, decodeStep outputs.logits = some preds ∧ res.length = bs ∧
      ∀ i, i < bs → ∃ f p, image_files[i]? = some f ∧ preds[i]? = some p ∧
        res[i]? = some (disk f, class_index nc p) := by
  unfold classification_queue_input at h
  rw [Option.bind_eq_some'] at h
  obtain ⟨preds, hpreds, hrun⟩ := h
  obtain ⟨hlen, hget⟩ := runLoop_eq_some hrun
  refine ⟨preds, hpreds, hlen, ?_⟩
  intro i hi
  have hstep : res[i]? = (image_files[i]?).bind fun f =>
      (preds[i]?).bind fun p => some (disk f, class_index nc p) := hget i hi
  cases hf : image_files[i]? with
  | none =>
    rw [hf, Option.none_bind'] at hstep
    have := List.getElem?_eq_none_iff.mp hstep
    omega
  | some f =>
    rw [hf, Option.some_bind'] at hstep
    cases hp : preds[i]? with
    | none =>
      rw [hp, Option.none_bind'] at hstep
      have := List.getElem?_eq_none_iff.mp hstep
      omega
    | some p =>
      rw [hp, Option.some_bind'] at hstep
      exact ⟨f, p, rfl, rfl, hstep⟩

/-- C2 witness. -/
theorem queue_input_pairs_disk_images_witness :
    ∃ preds, decodeStep [[0, 1], [1, 0]] = some preds ∧
      ([([10], 1), ([11], 0)] : List (RawImage × Nat)).length = 2 ∧
      ∀ i, i < 2 → ∃ f p, ([10, 11] : List Nat)[i]? = some f ∧
        preds[i]? = some p ∧
        ([([10], 1), ([11], 0)] : List (RawImage × Nat))[i]? =
          some ((fun n : Nat => [n]) f, class_index 1001 p) :=
  queue_input_pairs_disk_images (fun n => [n]) [10, 11]
    ⟨[[0, 1], [1, 0]], [[99], [98]]⟩ 2 1001 [([10], 1), ([11], 0)] (by decide)

/-- C9: when the resolved file list has fewer than batchSize entries, the
list access at index length is out of range (`none` in the total embedding)
and both variants abort rather than pad, error cleanly, or trim the batch. -/
theorem insufficient_images_fail (disk : Nat → RawImage)
    (resize : RawImage → RawImage) (backend : List NormImage → List (List ℚ))
    (image_files : List Nat) (outputs : QueueOutputs) (bs nc : Nat)
    (h : image_files.length < bs) :
    image_files[image_files.length]? = none ∧
    classification_queue_input disk image_files outputs bs nc = none ∧
    classification_placeholder_input disk resize backend image_files bs nc
      = none := by
  have hnone : image_files[image_files.length]? = none := by
    simp [List.getElem?_eq_none_iff]
  refine ⟨hnone, ?_, ?_⟩
  · unfold classification_queue_input
    cases decodeStep outputs.logits with
    | none => rw [Option.none_bind']
    | some preds =>
      rw [Option.some_bind']
      exact runLoop_eq_none (by simp [hnone]) h
  · unfold classification_placeholder_input builtBatch
    rw [runLoop_eq_none (by simp [hnone]) h, Option.none_bind']

/-- C9 witness. -/
theorem insufficient_images_fail_witness :
    ([5] : List Nat).length < 2 ∧
    ([5] : List Nat)[([5] : List Nat).length]? = none ∧
    classification_queue_input (fun n => [n]) [5] ⟨[[0, 1], [1, 0]], []⟩ 2 1001
      = none ∧
    classification_placeholder_input (fun n => [n]) id
      (fun _ => [[0, 1], [1, 0]]) [5] 2 1001 = none :=
  ⟨by decide, insufficient_images_fail (fun n => [n]) id
    (fun _ => [[0, 1], [1, 0]]) [5] ⟨[[0, 1], [1, 0]], []⟩ 2 1001 (by decide)⟩

/-- C10: with a single-row (1 × numClasses, numClasses ≥ 2) classification
output — the shape produced when batchSize is 1 — np.squeeze collapses the
batch axis to a 1-D vector, so the arg-max over axis 1 is over a nonexistent
axis and the decoding step of both variants fails. -/
theorem batch_size_one_decode_fails (row : List ℚ) (h : 2 ≤ row.length) :
    npSqueeze [row] = NpArray.one row ∧
    decodeStep [row] = none ∧
    (∀ (disk : Nat → RawImage) (image_files : List Nat)
        (fetched : List RawImage) (bs nc : Nat),
      classification_queue_input disk image_files ⟨[row], fetched⟩ bs nc
        = none) ∧
    (∀ (disk : Nat → RawImage) (resize : RawImage → RawImage)
        (backend : List NormImage → List (List ℚ)) (image_files : List Nat)
        (nc : Nat) (batch : List NormImage),
      builtBatch disk resize image_files 1 = some batch →
      backend batch = [row] →
      classification_placeholder_input disk resize backend image_files 1 nc
        = none) := by
  have hsq : npSqueeze [row] = NpArray.one row := by
    rcases row with _ | ⟨a, _ | ⟨b, t⟩⟩
    · simp at h
    · simp at h
    · rfl
  have hdec : decodeStep [row] = none := by
    unfold decodeStep
    rw [hsq]
    rfl
  refine ⟨hsq, hdec, ?_, ?_⟩
  · intro disk image_files fetched bs nc
    show ((decodeStep [row]).bind fun predictions =>
      runLoop (fun i => (image_files[i]?).bind fun f =>
        (predictions[i]?).bind fun p =>
          some (disk f, class_index nc p)) bs) = none
    rw [hdec, Option.none_bind']
  · intro disk resize backend image_files nc batch hbatch hbk
    unfold classification_placeholder_input
    simp only [hbatch, Option.some_bind']
    rw [hbk, hdec, Option.none_bind']

/-- C10 witness. -/
theorem batch_size_one_decode_fails_witness :
    npSqueeze [[0, 1]] = NpArray.one [0, 1] ∧
    decodeStep [[0, 1]] = none ∧
    (∀ (disk : Nat → RawImage) (image_files : List Nat)
        (fetched : List RawImage) (bs nc : Nat),
      classification_queue_input disk image_files ⟨[[0, 1]], fetched⟩ bs nc
        = none) ∧
    (∀ (disk : Nat → RawImage) (resize : RawImage → RawImage)
        (backend : List NormImage → List (List ℚ)) (image_files : List Nat)
        (nc : Nat) (batch : List NormImage),
      builtBatch disk resize image_files 1 = some batch →
      backend batch = [[0, 1]] →
      classification_placeholder_input disk resize backend image_files 1 nc
        = none) :=
  batch_size_one_decode_fails [0, 1] (by decide)

/-- C6: in both feeding variants, result i is built from input element i of
the batch (file i for the queue variant, batch tensor i for the placeholder
variant) and from output row i of the classification layer. -/
theorem positional_correspondence (disk : Nat → RawImage)
    (resize : RawImage → RawImage) (backend : List NormImage → List (List ℚ))
    (image_files : List Nat) (rows : List (List ℚ)) (fetched : List RawImage)
    (bs nc : Nat) (res res2 : List (RawImage × Nat)) (batch : List NormImage)
    (hsq : npSqueeze rows = NpArray.two rows)
    (hne : rows.all (fun r => !r.isEmpty) = true)
    (hq : classification_queue_input disk image_files ⟨rows, fetched⟩ bs nc
      = some res)
    (hbatch : builtBatch disk resize image_files bs = some batch)
    (hbk : backend batch = rows)
    (hp : classification_placeholder_input disk resize backend image_files
      bs nc = some res2) :
    ∀ i, i < bs → ∃ row, rows[i]? = some row ∧
      (∃ f, image_files[i]? = some f ∧
        res[i]? = some (disk f, class_index nc (npArgmax row))) ∧
      (∃ img, batch[i]? = some img ∧
        res2[i]? = some (denormalizeImage img, class_index nc (npArgmax row)))
    := by
  have hdec : decodeStep rows = some (rows.map npArgmax) :=
    decodeStep_two rows hsq hne
  unfold classification_queue_input at hq
  rw [Option.bind_eq_some'] at hq
  obtain ⟨preds, hpreds0, hrun⟩ := hq
  have hpreds : decodeStep rows = some preds := hpreds0
  rw [hdec, Option.some.injEq] at hpreds
  subst hpreds
  obtain ⟨hlen, hget⟩ := runLoop_eq_some hrun
  unfold classification_placeholder_input at hp
  rw [Option.bind_eq_some'] at hp
  obtain ⟨batch2, hbatch2, hp⟩ := hp
  rw [hbatch, Option.some.injEq] at hbatch2
  subst hbatch2
  rw [Option.bind_eq_some'] at hp
  obtain ⟨preds2, hpreds2, hrun2⟩ := hp
  rw [hbk, hdec, Option.some.injEq] at hpreds2
  subst hpreds2
  obtain ⟨hlen2, hget2⟩ := runLoop_eq_some hrun2
  intro i hi
  have hstep : res[i]? = (image_files[i]?).bind fun f =>
      ((rows.map npArgmax)[i]?).bind fun p =>
        some (disk f, class_index nc p) := hget i hi
  have hstep2 : res2[i]? = (batch[i]?).bind fun img =>
      ((rows.map npArgmax)[i]?).bind fun p =>
        some (denormalizeImage img, class_index nc p) := hget2 i hi
  cases hf : image_files[i]? with
  | none =>
    rw [hf, Option.none_bind'] at hstep
    have := List.getElem?_eq_none_iff.mp hstep
    omega
  | some f =>
    rw [hf, Option.some_bind'] at hstep
    cases himg : batch[i]? with
    | none =>
      rw [himg, Option.none_bind'] at hstep2
      have := List.getElem?_eq_none_iff.mp hstep2
      omega
    | some img =>
      rw [himg, Option.some_bind'] at hstep2
      rw [List.getElem?_map] at hstep hstep2
      cases hrow : rows[i]? with
      | none =>
        rw [hrow, Option.map_none', Option.none_bind'] at hstep
        have := List.getElem?_eq_none_iff.mp hstep
        omega
      | some row =>
        rw [hrow, Option.map_some', Option.some_bind'] at hstep hstep2
        exact ⟨row, rfl, ⟨f, rfl, hstep⟩, ⟨img, rfl, hstep2⟩⟩

/-- C6 witness. -/
theorem positional_correspondence_witness :
    ∃ row, ([[0, 1], [1, 0]] : List (List ℚ))[0]? = some row ∧
      (∃ f, ([10, 11] : List Nat)[0]? = some f ∧
        ([([10], 1), ([11], 0)] : List (RawImage × Nat))[0]? =
          some ([f], class_index 1001 (npArgmax row))) ∧
      (∃ img,
        ([normalizeImage [10], normalizeImage [11]] : List NormImage)[0]? =
          some img ∧
        ([(denormalizeImage (normalizeImage [10]), 1),
          (denormalizeImage (normalizeImage [11]), 0)] :
            List (RawImage × Nat))[0]? =
          some (denormalizeImage img, class_index 1001 (npArgmax row))) :=
  positional_correspondence (fun n => [n]) id (fun _ => [[0, 1], [1, 0]])
    [10, 11] [[0, 1], [1, 0]] [] 2 1001 [([10], 1), ([11], 0)]
    [(denormalizeImage (normalizeImage [10]), 1),
      (denormalizeImage (normalizeImage [11]), 0)]
    [normalizeImage [10], normalizeImage [11]]
    (by decide) (by decide) (by decide) rfl rfl rfl 0 (by decide)

/-- C8: in the placeholder variant every displayed image is the
denormalization of the batch tensor entry that was fed to the backend (not a
disk re-read), and when the resized source image is valid 8-bit data the
displayed pixels equal the fed pixels exactly. -/
theorem placeholder_displays_denormalized_batch (disk : Nat → RawImage)
    (resize : RawImage → RawImage) (backend : List NormImage → List (List ℚ))
    (image_files : List Nat) (bs nc : Nat) (res : List (RawImage × Nat))
    (h : classification_placeholder_input disk resize backend image_files
      bs nc = some res) :
    ∃ batch, builtBatch disk resize image_files bs = some batch ∧
      ∀ i, i < bs → ∃ img p f, batch[i]? = some img ∧
        image_files[i]? = some f ∧
        img = normalizeImage (resize (disk f)) ∧
        res[i]? = some (denormalizeImage img, class_index nc p) ∧
        ((∀ x ∈ resize (disk f), x ≤ 255) →
          denormalizeImage img = resize (disk f)) := by
  unfold classification_placeholder_input at h
  rw [Option.bind_eq_some'] at h
  obtain ⟨batch, hbatch, h⟩ := h
  rw [Option.bind_eq_some'] at h
  obtain ⟨preds, hpreds, hrun⟩ := h
  obtain ⟨hlen, hget⟩ := runLoop_eq_some hrun
  have hbatch2 : runLoop
      (fun i => (image_files[i]?).map (preprocessImage disk resize)) bs
      = some batch := hbatch
  obtain ⟨hblen, hbget⟩ := runLoop_eq_some hbatch2
  refine ⟨batch, hbatch, ?_⟩
  intro i hi
  have hstep : res[i]? = (batch[i]?).bind fun img =>
      (preds[i]?).bind fun p =>
        some (denormalizeImage img, class_index nc p) := hget i hi
  have hbstep : batch[i]? = (image_files[i]?).map (preprocessImage disk resize)
    := hbget i hi
  cases hf : image_files[i]? with
  | none =>
    rw [hf, Option.map_none'] at hbstep
    have := List.getElem?_eq_none_iff.mp hbstep
    omega
  | some f =>
    rw [hf, Option.map_some'] at hbstep
    cases hp : preds[i]? with
    | none =>
      rw [hbstep, Option.some_bind', hp, Option.none_bind'] at hstep
      have := List.getElem?_eq_none_iff.mp hstep
      omega
    | some p =>
      rw [hbstep, Option.some_bind', hp, Option.some_bind'] at hstep
      refine ⟨preprocessImage disk resize f, p, f, hbstep, rfl, rfl, hstep, ?_⟩
      intro hvalid
      exact denormalizeImage_normalizeImage (resize (disk f)) hvalid

/-- C8 witness. -/
theorem placeholder_displays_denormalized_batch_witness :
    ∃ batch, builtBatch (fun n => [n]) id [10, 11] 2 = some batch ∧
      ∀ i, i < 2 → ∃ img p f, batch[i]? = some img ∧
        ([10, 11] : List Nat)[i]? = some f ∧
        img = normalizeImage [f] ∧
        ([(denormalizeImage (normalizeImage [10]), 1),
          (denormalizeImage (normalizeImage [11]), 0)] :
            List (RawImage × Nat))[i]? =
          some (denormalizeImage img, class_index 1001 p) ∧
        ((∀ x ∈ [f], x ≤ 255) → denormalizeImage img = [f]) :=
  placeholder_displays_denormalized_batch (fun n => [n]) id
    (fun _ => [[0, 1], [1, 0]]) [10, 11] 2 1001
    [(denormalizeImage (normalizeImage [10]), 1),
      (denormalizeImage (normalizeImage [11]), 0)] rfl

example : decodeStep [[0, 1], [1, 0]] = some [1, 0] := by decide
example : decodeStep [[0, 1]] = none := by decide
example : npArgmax [3, 7, 7, 2] = 1 := by decide
example : class_index 1001 5 = 5 ∧ class_index 1000 5 = 6 ∧ class_index 999 5 = 6 := by decide
example : denormalizePixel (normalizePixel 200) = 200 := by
  norm_num [denormalizePixel, normalizePixel, astypeUInt8]
  decide
example :
    classification_queue_input (fun n => [n]) [10, 11]
      ⟨[[0, 1], [1, 0]], [[99], [98]]⟩ 2 1001 = some [([10], 1), ([11], 0)] := by decide
